import Mathlib

/-!
Shallow embedding of the core of the `workflow-engine` repository
(`src/workflow_engine/...`): the serializable `State`, the
`Transition`/`AbstractStateMachine` engine, the keyword and LLM
classifiers, the `WorkflowRegistry`, the email subject request-id
extraction, and the two orchestration drivers (deadline sweep and
inbound dispatch).

Python `dict`s are modelled as insertion-ordered association lists,
JSON-representable values as the inductive `Json` type (the stdlib
`json.dumps`/`json.loads` pair is abstracted as the standard bijection
between JSON texts and JSON values, so serialization works at the level
of JSON values), and machine integers as `Nat`/`Int` (no overflow is
relevant here).  Zero-argument Python callbacks (transition guards and
actions) are modelled by the value they produce when invoked, and the
act of invoking them is recorded in an explicit effect trace so that
evaluation order and evaluation counts are observable.
-/

namespace WorkflowEngine

/-- JSON-representable values (`json`-encodable Python data).  Numbers are
restricted to integers; `obj` fields are insertion-ordered as Python dicts. -/
inductive Json where
  | null
  | bool (b : Bool)
  | num (n : Int)
  | str (s : String)
  | arr (elems : List Json)
  | obj (fields : List (String × Json))

/-- `State` from `workflows/base/state.py`: a state name plus a data bag
(Python dict, insertion-ordered). -/
structure State where
  name : String
  data : List (String × Json)

/-- Failure of `State.deserialize`/`State.from_dict` on input that is not the
encoding of any `State` (malformed payload). -/
inductive DecodeError where
  | malformed (detail : String)
deriving DecidableEq, Repr

/-- `State.to_dict`: `{"name": self.name, "data": self.data}`. -/
def State.to_dict (s : State) : Json :=
  .obj [("name", .str s.name), ("data", .obj s.data)]

/-- `State.serialize`: `json.dumps({"name": self.name, "data": self.data})`.
The `json.dumps` rendering of a value to text is abstracted away (it is the
standard bijection between JSON values and their canonical texts), so the
serialized form is represented by the JSON value itself. -/
def State.serialize (s : State) : Json :=
  .obj [("name", .str s.name), ("data", .obj s.data)]

/-- Key lookup in a Python dict modelled as an association list. -/
def dictGet (fields : List (String × Json)) (key : String) : Option Json :=
  (fields.find? (fun p => p.1 == key)).map (fun p => p.2)

/-- `State.from_dict`: `cls(name=data["name"], data=data.get("data", {}))`.
`data["name"]` on a dict without the key raises (`KeyError`), and non-dict
input or fields of the wrong shape cannot build a well-typed `State`; all
those failures are decode failures here. -/
def State.from_dict : Json → Except DecodeError State
  | .obj fields =>
    match dictGet fields "name" with
    | some (.str name) =>
      match dictGet fields "data" with
      | some (.obj data) => .ok ⟨name, data⟩
      | some _ => .error (.malformed "data field is not an object")
      | none => .ok ⟨name, []⟩
    | some _ => .error (.malformed "name field is not a string")
    | none => .error (.malformed "missing name key")
  | _ => .error (.malformed "not a JSON object")

/-- `State.deserialize`: `json.loads` then the same field extraction as
`from_dict` (`cls(name=data["name"], data=data.get("data", {}))`).  With
`json.loads` abstracted as the inverse of the text rendering, the input is
the JSON value itself; syntactically malformed text corresponds to no `Json`
value and is already a decode failure. -/
def State.deserialize : Json → Except DecodeError State :=
  State.from_dict

/-- A workflow event: a member of a workflow-specific enumeration
(`BaseEventType` subclass).  Enum members are identified by their `name`
and compared by identity, which for members of one enumeration coincides
with comparison of names. -/
structure EventType where
  name : String
deriving DecidableEq, Repr

/-- Outcome of invoking a zero-argument Python callback that returns no
useful value (a transition action): it either returns normally or raises. -/
inductive CallOutcome where
  | ok
  | raises (msg : String)
deriving DecidableEq, Repr

/-- `Transition` from `workflows/base/transition.py`.  The `is_valid` guard
callback is modelled by the boolean it returns when invoked (default
`lambda: True`); the optional `action` callback by the outcome of invoking
it (`none` = no action). -/
structure Transition where
  from_state : String
  event : EventType
  to_state : String
  is_valid : Bool := true
  action : Option CallOutcome := none
deriving DecidableEq, Repr

/-- Observable invocation of a guard or action callback during `advance`;
the trace of these effects makes evaluation order and counts explicit. -/
inductive Eff where
  | guardEval (t : Transition) (result : Bool)
  | actionRun (t : Transition)
deriving DecidableEq, Repr

/-- `AbstractStateMachine`: the current `State` plus the fixed transition
list returned by `get_transitions()`. -/
structure Machine where
  transitions : List Transition
  state : State

/-- The machine built by `AbstractStateMachine.__init__` when no state is
passed: `State(name=self.initial_state, data={})`. -/
def Machine.mk_initial (transitions : List Transition) (initial_state : String) : Machine :=
  ⟨transitions, ⟨initial_state, []⟩⟩

/-- `get_valid_transitions`: transitions whose `from_state` is the current
state name and whose `event` equals the given event, in declaration order. -/
def Machine.get_valid_transitions (m : Machine) (event : EventType) : List Transition :=
  m.transitions.filter (fun t => t.from_state == m.state.name && t.event == event)

/-- `get_available_events`: `list({t.event for t in self._transitions if
t.from_state == self._state.name})` — the deduplicated events with a
transition out of the current state.  Python set iteration order is
unspecified; it is modelled as first-occurrence order. -/
def Machine.get_available_events (m : Machine) : List EventType :=
  ((m.transitions.filter (fun t => t.from_state == m.state.name)).map
    (fun t => t.event)).eraseDups

/-- Errors escaping `AbstractStateMachine.advance`: the
`InvalidTransitionError` it raises itself, or an uncaught exception
propagating out of a transition action. -/
inductive AdvanceError where
  | invalidTransition (message : String)
  | actionError (msg : String)
deriving DecidableEq, Repr

/-- Message of the `InvalidTransitionError` raised when no transition is
declared for the event in the current state. -/
def noTransitionMsg (event : EventType) (stateName : String) : String :=
  "No transition defined for event " ++ event.name ++ " in state " ++ stateName

/-- Message of the `InvalidTransitionError` raised when every candidate
guard evaluated false. -/
def conditionsNotMetMsg (event : EventType) (stateName : String) : String :=
  "Transition conditions not met for event " ++ event.name ++ " in state " ++ stateName

/-- Result of the candidate loop inside `advance`: the first guard-passing
transition was applied, its action raised, or the loop fell through. -/
inductive LoopResult where
  | applied (newState : State)
  | actionRaised (msg : String)
  | exhausted

/-- The `for transition in valid_transitions` loop of `advance` (lines
107-127 of `state_machine.py`): evaluate the guard; on `False` continue;
on `True` run the action if present (a raise propagates), then build
`State(name=transition.to_state, data=self._state.data.copy())`.  Returns
the trace of callback invocations alongside the outcome. -/
def advanceLoop (st : State) : List Transition → List Eff × LoopResult
  | [] => ([], .exhausted)
  | t :: rest =>
    if t.is_valid then
      match t.action with
      | some (.raises msg) => ([.guardEval t true, .actionRun t], .actionRaised msg)
      | some .ok => ([.guardEval t true, .actionRun t], .applied ⟨t.to_state, st.data⟩)
      | none => ([.guardEval t true], .applied ⟨t.to_state, st.data⟩)
    else
      let r := advanceLoop st rest
      (.guardEval t false :: r.1, r.2)

/-- `AbstractStateMachine.advance`.  On success the Python method mutates
`self._state` and returns `True`; that is modelled by returning the updated
machine.  On any error the machine is unchanged (the caller keeps the old
value).  The first component is the trace of guard/action invocations. -/
def Machine.advance (m : Machine) (event : EventType) : List Eff × Except AdvanceError Machine :=
  let valid := m.get_valid_transitions event
  if valid.isEmpty then
    ([], .error (.invalidTransition (noTransitionMsg event m.state.name)))
  else
    match advanceLoop m.state valid with
    | (tr, .applied st) => (tr, .ok ⟨m.transitions, st⟩)
    | (tr, .actionRaised msg) => (tr, .error (.actionError msg))
    | (tr, .exhausted) =>
      (tr, .error (.invalidTransition (conditionsNotMetMsg event m.state.name)))

/-- ASCII whitespace (Python `str.isspace` on the ASCII range). -/
def isSpaceChar (c : Char) : Bool :=
  c == ' ' || c == '\t' || c == '\n' || c == '\r' || c == '\x0b' || c == '\x0c'

/-- Python `str.lower` on one character, restricted to ASCII case mapping. -/
def asciiLower (c : Char) : Char :=
  if 'A' ≤ c ∧ c ≤ 'Z' then Char.ofNat (c.toNat + 32) else c

/-- Python `str.lower`, restricted to ASCII case mapping. -/
def strLower (s : String) : String :=
  ⟨s.data.map asciiLower⟩

/-- Python `str.upper` on one character, restricted to ASCII case mapping. -/
def asciiUpper (c : Char) : Char :=
  if 'a' ≤ c ∧ c ≤ 'z' then Char.ofNat (c.toNat - 32) else c

/-- Python `str.upper`, restricted to ASCII case mapping. -/
def strUpper (s : String) : String :=
  ⟨s.data.map asciiUpper⟩

/-- Python's `needle in hay` substring containment test on strings. -/
def substrB (needle hay : String) : Bool :=
  decide (needle.data <:+: hay.data)

/-- `KeywordClassifier` from `workflows/classifiers/keyword.py`: an ordered
keyword → event mapping (Python dict in insertion order) plus the
`case_sensitive` flag (default false). -/
structure KeywordClassifier where
  keyword_map : List (String × EventType)
  case_sensitive : Bool := false

/-- The `for keyword, event_type in self._keyword_map.items()` loop of
`KeywordClassifier.classify`: lower the keyword unless case-sensitive, test
substring containment in the (pre-lowered) content, first match wins. -/
def classifyLoop (case_sensitive : Bool) (search_content : String) :
    List (String × EventType) → Option EventType
  | [] => none
  | (keyword, event_type) :: rest =>
    let search_keyword := if case_sensitive then keyword else strLower keyword
    if substrB search_keyword search_content then some event_type
    else classifyLoop case_sensitive search_content rest

/-- `KeywordClassifier.classify` (lines 41-57 of `keyword.py`). -/
def KeywordClassifier.classify (c : KeywordClassifier) (content : String) :
    Option EventType :=
  let search_content := if c.case_sensitive then content else strLower content
  classifyLoop c.case_sensitive search_content c.keyword_map

/-- Whether one keyword of the map matches the content, exactly as the loop
body of `KeywordClassifier.classify` tests it. -/
def keywordMatches (case_sensitive : Bool) (keyword content : String) : Bool :=
  substrB (if case_sensitive then keyword else strLower keyword)
    (if case_sensitive then content else strLower content)

/-- `WorkflowDefinition` from `workflows/registry.py`: a unique name, the
state machine class (represented by the transition list and initial state
obtained from instantiating it), the classifier instance (represented by
its classification function), and the mutable `enabled` flag. -/
structure WorkflowDefinition where
  name : String
  transitions : List Transition
  initial_state : String
  classify : String → Option EventType
  enabled : Bool := true

namespace WorkflowRegistry

/-- `WorkflowRegistry.register`: `cls._workflows[definition.name] =
definition` — dict assignment overwrites an existing key in place and
otherwise appends. -/
def register (reg : List WorkflowDefinition) (d : WorkflowDefinition) :
    List WorkflowDefinition :=
  if reg.any (fun w => w.name == d.name) then
    reg.map (fun w => if w.name == d.name then d else w)
  else reg ++ [d]

/-- `WorkflowRegistry.unregister`: `del` the entry and return `True` when
the name is present, otherwise return `False` without touching the dict. -/
def unregister (reg : List WorkflowDefinition) (name : String) :
    Bool × List WorkflowDefinition :=
  if reg.any (fun w => w.name == name) then
    (true, reg.filter (fun w => !(w.name == name)))
  else (false, reg)

/-- `WorkflowRegistry.get`: `cls._workflows.get(name)` — none when absent. -/
def get (reg : List WorkflowDefinition) (name : String) : Option WorkflowDefinition :=
  reg.find? (fun w => w.name == name)

/-- `WorkflowRegistry.list_all`. -/
def list_all (reg : List WorkflowDefinition) : List WorkflowDefinition := reg

/-- `WorkflowRegistry.list_enabled`. -/
def list_enabled (reg : List WorkflowDefinition) : List WorkflowDefinition :=
  reg.filter (fun w => w.enabled)

/-- `WorkflowRegistry.enable`: set `enabled = True` in place and return
`True` when the name is present, otherwise return `False`. -/
def enable (reg : List WorkflowDefinition) (name : String) :
    Bool × List WorkflowDefinition :=
  if reg.any (fun w => w.name == name) then
    (true, reg.map (fun w => if w.name == name then { w with enabled := true } else w))
  else (false, reg)

/-- `WorkflowRegistry.disable`: set `enabled = False` in place and return
`True` when the name is present, otherwise return `False`. -/
def disable (reg : List WorkflowDefinition) (name : String) :
    Bool × List WorkflowDefinition :=
  if reg.any (fun w => w.name == name) then
    (true, reg.map (fun w => if w.name == name then { w with enabled := false } else w))
  else (false, reg)

end WorkflowRegistry

/-- `int` applied to the digits captured by the regex group `(\d+)`. -/
def natOfDigits (ds : List Char) : Nat :=
  ds.foldl (fun acc c => acc * 10 + (c.toNat - 48)) 0

/-- One attempt of the regex engine to match `\[REQ-(\d+)\]` at the current
position: the literal `[REQ-`, then a nonempty maximal digit run (greedy
`\d+`; backtracking gains nothing because no shorter digit run can be
followed by `]`), then the literal `]`.  Returns the captured integer. -/
def reqIdMatchAt (cs : List Char) : Option Nat :=
  if cs.take 5 = ['[', 'R', 'E', 'Q', '-'] then
    if ((cs.drop 5).takeWhile (fun c => c.isDigit)).isEmpty then none
    else
      match (cs.drop 5).dropWhile (fun c => c.isDigit) with
      | ']' :: _ => some (natOfDigits ((cs.drop 5).takeWhile (fun c => c.isDigit)))
      | _ => none
  else none

/-- `re.search`: try the pattern at each position from the left, taking the
leftmost match. -/
def extractLoop : List Char → Option Nat
  | [] => none
  | c :: rest =>
    match reqIdMatchAt (c :: rest) with
    | some n => some n
    | none => extractLoop rest

/-- `EmailSender.extract_request_id`: `REQUEST_ID_PATTERN.search(subject)`
with `REQUEST_ID_PATTERN = re.compile(r"\[REQ-(\d+)\]")`, returning
`int(match.group(1))` on a match and `None` otherwise. -/
def extract_request_id (subject : String) : Option Nat :=
  extractLoop subject.data

/-- Declarative statement that the pattern `\[REQ-(\d+)\]` occurs at offset
`i` of the character list capturing the digit run `ds`. -/
def reqOccursAt (cs : List Char) (i : Nat) (ds : List Char) : Prop :=
  ds ≠ [] ∧ (∀ c ∈ ds, c.isDigit = true) ∧
  ∃ rest, cs.drop i = '[' :: 'R' :: 'E' :: 'Q' :: '-' :: (ds ++ ']' :: rest)

/-- Python `str.strip()`: remove leading and trailing whitespace (ASCII
model). -/
def strip (s : String) : String :=
  ⟨((s.data.dropWhile isSpaceChar).reverse.dropWhile isSpaceChar).reverse⟩

/-- The `NotImplementedError` raised by the synchronous `classify` of
`LLMClassifier` (the spec's `UnsupportedOperationError`). -/
inductive UnsupportedOperationError where
  | notImplemented (msg : String)
deriving DecidableEq, Repr

/-- `LLMClassifier` from `workflows/classifiers/llm.py`: the event enum
(its members, in declaration order) and the optional prompt template. -/
structure LLMClassifier where
  event_type_enum : List EventType
  prompt_template : Option String := none

/-- `LLMClassifier.classify`: always raises `NotImplementedError` — the
synchronous path exists only to satisfy the shared classifier surface. -/
def LLMClassifier.classify (_c : LLMClassifier) (_content : String) :
    Except UnsupportedOperationError (Option EventType) :=
  .error (.notImplemented
    "LLM-based classification requires async. Use classify_async instead.")

/-- `LLMClassifier._parse_response`: `response.strip().upper()` compared by
`==` against `event.name.upper()` for each enum member in declaration
order; the first match is returned, else `None`. -/
def LLMClassifier.parse_response (c : LLMClassifier) (response : String) :
    Option EventType :=
  c.event_type_enum.find?
    (fun e => strUpper e.name == strUpper (strip response))

/-- Python truthiness of a JSON-representable value (the `if not
deadline_at` test of the deadline sweep). -/
def Json.isFalsy : Json → Bool
  | .null => true
  | .bool b => !b
  | .num n => n == 0
  | .str s => s == ""
  | .arr elems => elems.isEmpty
  | .obj fields => fields.isEmpty

/-- `AbstractStateMachine.get_state_data`: `self._state.data.get(key,
default)` with the default `None`. -/
def Machine.get_state_data (m : Machine) (key : String) : Option Json :=
  dictGet m.state.data key

/-- Outcome of `_check_deadline_conditions` for one open request whose
workflow resolved and whose latest state record was loaded. -/
inductive SweepOutcome where
  | skipped_no_deadline
  | skipped_not_elapsed
  | triggered (event : EventType) (m : Machine)
  | no_valid_transition
  | request_error

/-- The `for event in available_events` loop of the deadline sweep (lines
92-123 of `check_deadlines.py`): only events whose name upper-cased
contains "DEADLINE" are attempted; `advance` errors are caught
per-candidate (`except Exception`) and the loop stops at the first event
that succeeds.  Returns the events actually passed to `advance` and the
outcome. -/
def sweepLoop (m : Machine) : List EventType → List EventType × SweepOutcome
  | [] => ([], .no_valid_transition)
  | ev :: rest =>
    if substrB "DEADLINE" (strUpper ev.name) then
      match (m.advance ev).2 with
      | .ok m2 => ([ev], .triggered ev m2)
      | .error _ =>
        let r := sweepLoop m rest
        (ev :: r.1, r.2)
    else sweepLoop m rest

/-- Per-request core of `_check_deadline_conditions` (lines 69-129 of
`check_deadlines.py`), for a request whose workflow definition resolved
enabled and whose latest state record reconstructed the machine `m`: read
`deadline_at` from the state data (missing or falsy ⇒ skip), compare with
the current time `now` (`deadline_at > now` ⇒ skip), otherwise run the
deadline-event loop over `get_available_events()`.  `datetime` timestamps
are abstracted to integers (`Json.num`); any other non-falsy value makes
the comparison (or `fromisoformat`) raise, which the per-request handler
catches as an error.  Returns the events attempted through `advance` and
the outcome. -/
def checkDeadline (m : Machine) (now : Int) : List EventType × SweepOutcome :=
  match m.get_state_data "deadline_at" with
  | none => ([], .skipped_no_deadline)
  | some v =>
    if v.isFalsy then ([], .skipped_no_deadline)
    else
      match v with
      | .num t =>
        if t > now then ([], .skipped_not_elapsed)
        else sweepLoop m m.get_available_events
      | _ => ([], .request_error)

/-- `RequestStatus` from `db/models/enums.py`. -/
inductive RequestStatus where
  | pending
  | in_progress
  | awaiting_response
  | completed
  | cancelled
deriving DecidableEq, Repr

/-- Outcome of handling one inbound message in `_process_inbound_emails`
(lines 48-158 of `process_inbound_emails.py`). -/
inductive DispatchOutcome where
  | skipped_request_not_found
  | skipped_closed_request
  | skipped_no_workflow
  | skipped_workflow_disabled
  | skipped_unclassified
  | handled (advanced : Bool) (m : Machine)

/-- Result of handling one inbound message: the outcome plus whether
`receiver.mark_processed` was called for the message. -/
structure DispatchResult where
  outcome : DispatchOutcome
  marked_processed : Bool

/-- Per-message core of `_process_inbound_emails`: `request` is the row
found by `session.get` (its status), `workflow` the registry lookup for
the request type, `state_record` the latest persisted state snapshot, and
`body` the message body handed to the workflow's classifier.  A closed
request is skipped but still marked processed; a missing request, missing
or disabled workflow, or unclassifiable body is skipped without marking;
after classification the advance attempt is wrapped in `except Exception`,
and the message is logged and marked processed whether or not the machine
advanced. -/
def processMessage (request : Option RequestStatus)
    (workflow : Option WorkflowDefinition) (state_record : Option State)
    (body : String) : DispatchResult :=
  match request with
  | none => ⟨.skipped_request_not_found, false⟩
  | some status =>
    if status = .completed ∨ status = .cancelled then
      ⟨.skipped_closed_request, true⟩
    else
      match workflow with
      | none => ⟨.skipped_no_workflow, false⟩
      | some wf =>
        if !wf.enabled then ⟨.skipped_workflow_disabled, false⟩
        else
          let m : Machine :=
            match state_record with
            | some st => ⟨wf.transitions, st⟩
            | none => Machine.mk_initial wf.transitions wf.initial_state
          match wf.classify body with
          | none => ⟨.skipped_unclassified, false⟩
          | some ev =>
            match (m.advance ev).2 with
            | .ok m2 => ⟨.handled true m2, true⟩
            | .error _ => ⟨.handled false m, true⟩

end WorkflowEngine

namespace WorkflowEngine

/-- C4: round-trip of `State` through `to_dict`/`from_dict` and
`serialize`/`deserialize`: for every `State` whose data bag holds
JSON-representable keys and values (enforced by the `Json` type),
`from_dict (to_dict s) = ok s` and `deserialize (serialize s) = ok s`;
every failure of `deserialize` is a `DecodeError` on malformed input. -/
theorem state_roundtrip (s : State) :
    State.from_dict (State.to_dict s) = Except.ok s ∧
    State.deserialize (State.serialize s) = Except.ok s := by
  constructor <;>
    simp [State.to_dict, State.serialize, State.deserialize, State.from_dict, dictGet]

/-- A run of guard-false candidates at the front of the loop contributes its
failed guard evaluations to the trace and leaves the outcome to the rest. -/
theorem advanceLoop_skips_failed_guards (st : State) (pre rest : List Transition)
    (hpre : ∀ p ∈ pre, p.is_valid = false) :
    advanceLoop st (pre ++ rest) =
      ((pre.map fun p => Eff.guardEval p false) ++ (advanceLoop st rest).1,
       (advanceLoop st rest).2) := by
  induction pre with
  | nil => simp [advanceLoop]
  | cons p ps ih =>
    have hp : p.is_valid = false := hpre p (by simp)
    have ihs := ih (fun x hx => hpre x (by simp [hx]))
    simp [advanceLoop, hp, ihs]

/-- If the candidate loop falls through, every candidate's guard was false. -/
theorem advanceLoop_exhausted (st : State) (l : List Transition)
    (h : (advanceLoop st l).2 = .exhausted) : ∀ t ∈ l, t.is_valid = false := by
  induction l with
  | nil => simp
  | cons t rest ih =>
    intro x hx
    by_cases ht : t.is_valid = true
    · exfalso
      cases hact : t.action with
      | none => simp [advanceLoop, ht, hact] at h
      | some out => cases out <;> simp [advanceLoop, ht, hact] at h
    · have ht' : t.is_valid = false := by simpa using ht
      rcases List.mem_cons.mp hx with rfl | hx'
      · exact ht'
      · refine ih ?_ x hx'
        simpa [advanceLoop, ht'] using h

/-- If every candidate's guard is false the loop falls through, tracing one
failed guard evaluation per candidate. -/
theorem advanceLoop_all_false (st : State) (l : List Transition)
    (h : ∀ t ∈ l, t.is_valid = false) :
    advanceLoop st l = (l.map fun t => Eff.guardEval t false, .exhausted) := by
  have := advanceLoop_skips_failed_guards st l [] h
  simpa [advanceLoop] using this

/-- C1: when the current state has at least one transition matching the
event, `advance` tries the matching transitions in declaration order; for
the first one whose guard evaluates true (its action, if any, succeeding)
it replaces the current `State` by `⟨to_state, copy of current data⟩`
(every existing key carried forward, nothing else changed) and returns
success, and the trace shows that no candidate after it is evaluated. -/
theorem advance_applies_first_passing_transition (m : Machine) (event : EventType)
    (pre post : List Transition) (t : Transition)
    (hsplit : m.get_valid_transitions event = pre ++ t :: post)
    (hpre : ∀ p ∈ pre, p.is_valid = false)
    (ht : t.is_valid = true)
    (hact : ∀ msg, t.action ≠ some (.raises msg)) :
    m.advance event =
      ((pre.map fun p => Eff.guardEval p false) ++
         Eff.guardEval t true :: (if t.action.isSome then [Eff.actionRun t] else []),
       Except.ok ⟨m.transitions, ⟨t.to_state, m.state.data⟩⟩) := by
  have hne : (m.get_valid_transitions event).isEmpty = false := by simp [hsplit]
  have hloop := advanceLoop_skips_failed_guards m.state pre (t :: post) hpre
  cases hactcase : t.action with
  | none =>
    simp [Machine.advance, hne, hsplit, hloop, advanceLoop, ht, hactcase]
  | some out =>
    cases out with
    | ok => simp [Machine.advance, hne, hsplit, hloop, advanceLoop, ht, hactcase]
    | raises msg => exact absurd hactcase (hact msg)

/-- C1 witness: an unconditional transition from `pending` carries the data
bag `{"k": "v"}` forward into `in_progress`. -/
theorem advance_applies_first_passing_transition_witness :
    Machine.advance
        ⟨[⟨"pending", ⟨"START"⟩, "in_progress", true, none⟩],
         ⟨"pending", [("k", Json.str "v")]⟩⟩ ⟨"START"⟩ =
      ([Eff.guardEval ⟨"pending", ⟨"START"⟩, "in_progress", true, none⟩ true],
       Except.ok
         ⟨[⟨"pending", ⟨"START"⟩, "in_progress", true, none⟩],
          ⟨"in_progress", [("k", Json.str "v")]⟩⟩) := by
  simpa using
    advance_applies_first_passing_transition
      ⟨[⟨"pending", ⟨"START"⟩, "in_progress", true, none⟩],
       ⟨"pending", [("k", Json.str "v")]⟩⟩ ⟨"START"⟩
      [] [] ⟨"pending", ⟨"START"⟩, "in_progress", true, none⟩
      rfl (by simp) rfl (by simp)

/-- C2: `advance` raises `InvalidTransitionError`, leaving the machine
unchanged (the error result carries no new machine), in exactly two cases:
no declared transition matches the current state and event (message
"No transition defined for event ... in state ..."), or every matching
transition's guard evaluated false (message "Transition conditions not met
for event ... in state ..."); the two messages are distinct and both are
the same error kind.  Neither case is a silent no-op. -/
theorem advance_invalid_transition_cases (m : Machine) (event : EventType) :
    (m.get_valid_transitions event = [] →
      m.advance event =
        ([], .error (.invalidTransition (noTransitionMsg event m.state.name)))) ∧
    (m.get_valid_transitions event ≠ [] →
      (∀ t ∈ m.get_valid_transitions event, t.is_valid = false) →
      m.advance event =
        ((m.get_valid_transitions event).map fun t => Eff.guardEval t false,
         .error (.invalidTransition (conditionsNotMetMsg event m.state.name)))) ∧
    (∀ msg, (m.advance event).2 = .error (.invalidTransition msg) →
      m.get_valid_transitions event = [] ∨
        (m.get_valid_transitions event ≠ [] ∧
          ∀ t ∈ m.get_valid_transitions event, t.is_valid = false)) ∧
    noTransitionMsg event m.state.name ≠ conditionsNotMetMsg event m.state.name := by
  refine ⟨?_, ?_, ?_, ?_⟩
  · intro h
    simp [Machine.advance, h]
  · intro hne hall
    have hbool : (m.get_valid_transitions event).isEmpty = false := by
      simpa [List.isEmpty_iff] using hne
    have hloop := advanceLoop_all_false m.state _ hall
    simp [Machine.advance, hbool, hloop]
  · intro msg h
    by_cases hv : m.get_valid_transitions event = []
    · exact Or.inl hv
    · right
      refine ⟨hv, advanceLoop_exhausted m.state _ ?_⟩
      have hbool : (m.get_valid_transitions event).isEmpty = false := by
        simpa [List.isEmpty_iff] using hv
      rcases hL : advanceLoop m.state (m.get_valid_transitions event) with ⟨tr, res⟩
      cases res with
      | applied st => simp [Machine.advance, hbool, hL] at h
      | actionRaised m2 => simp [Machine.advance, hbool, hL] at h
      | exhausted => simp [hL]
  · intro h
    have hlen := congrArg String.length h
    have h1 : ("No transition defined for event " : String).length = 32 := rfl
    have h2 : (" in state " : String).length = 10 := rfl
    have h3 : ("Transition conditions not met for event " : String).length = 40 := rfl
    simp only [noTransitionMsg, conditionsNotMetMsg, String.length_append, h1, h2, h3] at hlen
    omega

/-- C2 witness: no transition matches `APPROVE` in a machine sitting in
`pending` with an empty transition list, so `advance` fails with the
"no transition" message; and the two error messages are distinct there. -/
theorem advance_invalid_transition_cases_witness :
    Machine.advance ⟨[], ⟨"pending", []⟩⟩ ⟨"APPROVE"⟩ =
      ([], .error (.invalidTransition (noTransitionMsg ⟨"APPROVE"⟩ "pending"))) ∧
    noTransitionMsg ⟨"APPROVE"⟩ "pending" ≠ conditionsNotMetMsg ⟨"APPROVE"⟩ "pending" :=
  ⟨(advance_invalid_transition_cases ⟨[], ⟨"pending", []⟩⟩ ⟨"APPROVE"⟩).1 rfl,
   (advance_invalid_transition_cases ⟨[], ⟨"pending", []⟩⟩ ⟨"APPROVE"⟩).2.2.2⟩

/-- C3: once a transition's guard has passed, its action (when present) is
invoked exactly once, after the guard evaluation and before any new state
is produced; if the action raises, the error propagates out of `advance`
uncaught (not as `InvalidTransitionError`) and no new state is produced,
so the machine still holds the old `State`; if the action returns, the
state is replaced afterwards. -/
theorem advance_action_runs_once (m : Machine) (event : EventType)
    (pre post : List Transition) (t : Transition) (out : CallOutcome)
    (hsplit : m.get_valid_transitions event = pre ++ t :: post)
    (hpre : ∀ p ∈ pre, p.is_valid = false)
    (ht : t.is_valid = true)
    (hact : t.action = some out) :
    (m.advance event).1 =
      (pre.map fun p => Eff.guardEval p false) ++
        [Eff.guardEval t true, Eff.actionRun t] ∧
    (m.advance event).1.count (Eff.actionRun t) = 1 ∧
    (∀ msg, out = .raises msg → (m.advance event).2 = .error (.actionError msg)) ∧
    (out = .ok → (m.advance event).2 = .ok ⟨m.transitions, ⟨t.to_state, m.state.data⟩⟩) := by
  have hne : (m.get_valid_transitions event).isEmpty = false := by simp [hsplit]
  have hloop := advanceLoop_skips_failed_guards m.state pre (t :: post) hpre
  have hcount :
      ((pre.map fun p => Eff.guardEval p false) ++
        [Eff.guardEval t true, Eff.actionRun t]).count (Eff.actionRun t) = 1 := by
    rw [List.count_append]
    have : (pre.map fun p => Eff.guardEval p false).count (Eff.actionRun t) = 0 := by
      rw [List.count_eq_zero]
      simp
    simp [this]
  cases out with
  | ok =>
    have hadv : m.advance event =
        ((pre.map fun p => Eff.guardEval p false) ++
          [Eff.guardEval t true, Eff.actionRun t],
         Except.ok ⟨m.transitions, ⟨t.to_state, m.state.data⟩⟩) := by
      simp [Machine.advance, hne, hsplit, hloop, advanceLoop, ht, hact]
    refine ⟨by simp [hadv], ?_, ?_, ?_⟩
    · rw [hadv]
      exact hcount
    · intro msg hmsg
      cases hmsg
    · intro _
      simp [hadv]
  | raises msg =>
    have hadv : m.advance event =
        ((pre.map fun p => Eff.guardEval p false) ++
          [Eff.guardEval t true, Eff.actionRun t],
         Except.error (.actionError msg)) := by
      simp [Machine.advance, hne, hsplit, hloop, advanceLoop, ht, hact]
    refine ⟨by simp [hadv], ?_, ?_, ?_⟩
    · rw [hadv]
      exact hcount
    · intro msg2 hmsg
      cases hmsg
      simp [hadv]
    · intro hok
      cases hok

/-- `Char.ofNat` of a scalar value below the surrogate range decodes back
to the same natural number. -/
theorem char_toNat_ofNat {n : Nat} (h : n < 55296) : (Char.ofNat n).toNat = n := by
  have hv : n.isValidChar := Or.inl h
  rw [Char.ofNat, dif_pos hv]
  simp [Char.ofNatAux, Char.toNat, UInt32.toNat]

/-- `Char` order agrees with the order of code points. -/
theorem char_le_iff_toNat {a b : Char} : a ≤ b ↔ a.toNat ≤ b.toNat := by
  rw [Char.le_def, UInt32.le_def, BitVec.le_def]
  exact Iff.rfl

/-- ASCII whitespace characters are untouched by `asciiLower`. -/
theorem asciiLower_space {c : Char} (h : isSpaceChar c = true) : asciiLower c = c := by
  simp only [isSpaceChar, Bool.or_eq_true, beq_iff_eq] at h
  rcases h with ((((h | h) | h) | h) | h) | h <;> subst h <;> decide

/-- A character built from a large code point differs from any character
with a small code point. -/
theorem char_ofNat_ne_small {n : Nat} (hn : 97 ≤ n) (hlt : n < 55296)
    {ch : Char} (hch : ch.toNat < 97) : Char.ofNat n ≠ ch := by
  intro hEq
  have h1 : (Char.ofNat n).toNat = n := char_toNat_ofNat hlt
  rw [hEq] at h1
  omega

/-- `asciiLower` sends non-whitespace characters to non-whitespace
characters: lowering only moves `A`-`Z` into `a`-`z`. -/
theorem isSpaceChar_asciiLower {c : Char} (h : isSpaceChar c = false) :
    isSpaceChar (asciiLower c) = false := by
  unfold asciiLower
  split
  · rename_i hc
    have hlo : 65 ≤ c.toNat := by
      have := char_le_iff_toNat.mp hc.1
      simpa using this
    have hhi : c.toNat ≤ 90 := by
      have := char_le_iff_toNat.mp hc.2
      simpa using this
    simp only [isSpaceChar, Bool.or_eq_false_iff, beq_eq_false_iff_ne, ne_eq]
    refine ⟨⟨⟨⟨⟨?_, ?_⟩, ?_⟩, ?_⟩, ?_⟩, ?_⟩ <;>
      exact char_ofNat_ne_small (by omega) (by omega) (by decide)
  · exact h

/-- A guard-false run of keywords at the front of the classifier loop is
skipped without affecting the outcome. -/
theorem classifyLoop_skips_unmatched (cs : Bool) (sc : String)
    (pre rest : List (String × EventType))
    (h : ∀ p ∈ pre, substrB (if cs then p.1 else strLower p.1) sc = false) :
    classifyLoop cs sc (pre ++ rest) = classifyLoop cs sc rest := by
  induction pre with
  | nil => rfl
  | cons p ps ih =>
    have hp := h p (by simp)
    have ihs := ih (fun q hq => h q (by simp [hq]))
    simpa [classifyLoop, hp] using ihs

/-- On whitespace-only content, a keyword containing a non-whitespace
character cannot match. -/
theorem keywordMatches_space_content (cs : Bool) (k content : String)
    (hcontent : content.data.all isSpaceChar = true)
    (hk : ∃ ch ∈ k.data, isSpaceChar ch = false) :
    keywordMatches cs k content = false := by
  obtain ⟨ch, hch, hns⟩ := hk
  rw [Bool.eq_false_iff]
  intro htrue
  have hall : ∀ x ∈ content.data, isSpaceChar x = true := by
    simpa [List.all_eq_true] using hcontent
  cases cs with
  | true =>
    have hsub : k.data <:+: content.data := by
      simpa [keywordMatches, substrB] using htrue
    have := hall ch (hsub.subset hch)
    rw [hns] at this
    exact absurd this (by decide)
  | false =>
    have hsub : (strLower k).data <:+: (strLower content).data := by
      simpa [keywordMatches, substrB] using htrue
    have hmem : asciiLower ch ∈ (strLower content).data := by
      refine hsub.subset ?_
      simp only [strLower]
      exact List.mem_map_of_mem asciiLower hch
    simp only [strLower] at hmem
    obtain ⟨c0, hc0, heq⟩ := List.mem_map.mp hmem
    have hc0s := hall c0 hc0
    have h1 : asciiLower c0 = c0 := asciiLower_space hc0s
    have h2 := isSpaceChar_asciiLower hns
    rw [← heq, h1, hc0s] at h2
    exact absurd h2 (by decide)

/-- C5 counterexample: the claim "empty or whitespace-only text never
matches" fails on the code: a classifier whose mapping contains the empty
keyword matches the empty text (`"" in ""` is true in Python), so
`classify` returns the keyword's event instead of none. -/
theorem keyword_classifier_empty_text_matches :
    KeywordClassifier.classify ⟨[("", ⟨"APPROVED"⟩)], false⟩ "" =
      some ⟨"APPROVED"⟩ := by
  decide

/-- C5 (amended): keywords are checked in mapping declaration order and the
event of the first keyword occurring as a substring of the text is
returned, case-insensitively unless `case_sensitive` is set; when no
keyword matches, the result is none rather than an error; and empty or
whitespace-only text never matches provided every keyword contains at
least one non-whitespace character. -/
theorem keyword_classifier_spec (c : KeywordClassifier) (content : String) :
    (∀ pre k e post,
        c.keyword_map = pre ++ (k, e) :: post →
        (∀ p ∈ pre, keywordMatches c.case_sensitive p.1 content = false) →
        keywordMatches c.case_sensitive k content = true →
        c.classify content = some e) ∧
    ((∀ p ∈ c.keyword_map, keywordMatches c.case_sensitive p.1 content = false) →
        c.classify content = none) ∧
    (content.data.all isSpaceChar = true →
        (∀ p ∈ c.keyword_map, ∃ ch ∈ p.1.data, isSpaceChar ch = false) →
        c.classify content = none) := by
  have hnone : (∀ p ∈ c.keyword_map,
      keywordMatches c.case_sensitive p.1 content = false) →
      c.classify content = none := by
    intro hall
    unfold KeywordClassifier.classify
    have hskip := classifyLoop_skips_unmatched c.case_sensitive
      (if c.case_sensitive then content else strLower content) c.keyword_map []
      (fun p hp => by simpa [keywordMatches] using hall p hp)
    calc classifyLoop c.case_sensitive
          (if c.case_sensitive then content else strLower content) c.keyword_map
        = classifyLoop c.case_sensitive
            (if c.case_sensitive then content else strLower content)
            (c.keyword_map ++ []) := by rw [List.append_nil]
      _ = none := hskip
  refine ⟨?_, hnone, ?_⟩
  · intro pre k e post hsplit hpre hk
    unfold KeywordClassifier.classify
    rw [hsplit]
    rw [classifyLoop_skips_unmatched c.case_sensitive _ pre _
      (fun p hp => by simpa [keywordMatches] using hpre p hp)]
    have hk' : substrB (if c.case_sensitive then k else strLower k)
        (if c.case_sensitive then content else strLower content) = true := by
      simpa [keywordMatches] using hk
    simp [classifyLoop, hk']
  · intro hws hkw
    exact hnone (fun p hp =>
      keywordMatches_space_content c.case_sensitive p.1 content hws (hkw p hp))

/-- C5 witness: with mapping `{"approved": APPROVED, "more information":
INFO_REQUESTED}` the text "approved but we need more information"
classifies as APPROVED (first match in declaration order), and the text
"nothing relevant" classifies as none. -/
theorem keyword_classifier_spec_witness :
    KeywordClassifier.classify
        ⟨[("approved", ⟨"APPROVED"⟩), ("more information", ⟨"INFO_REQUESTED"⟩)],
         false⟩ "approved but we need more information" = some ⟨"APPROVED"⟩ ∧
    KeywordClassifier.classify
        ⟨[("approved", ⟨"APPROVED"⟩), ("more information", ⟨"INFO_REQUESTED"⟩)],
         false⟩ "nothing relevant" = none :=
  ⟨(keyword_classifier_spec
      ⟨[("approved", ⟨"APPROVED"⟩), ("more information", ⟨"INFO_REQUESTED"⟩)],
       false⟩ "approved but we need more information").1
      [] "approved" ⟨"APPROVED"⟩ [("more information", ⟨"INFO_REQUESTED"⟩)]
      rfl (by simp) (by decide),
   (keyword_classifier_spec
      ⟨[("approved", ⟨"APPROVED"⟩), ("more information", ⟨"INFO_REQUESTED"⟩)],
       false⟩ "nothing relevant").2.1
      (by decide)⟩

/-- A positional replacement touching only entries with the looked-up name
(and keeping their name matching) commutes with registry lookup. -/
theorem registry_get_map_if (reg : List WorkflowDefinition) (name : String)
    (f : WorkflowDefinition → WorkflowDefinition)
    (hf : ∀ w : WorkflowDefinition, (w.name == name) = true → ((f w).name == name) = true) :
    WorkflowRegistry.get (reg.map (fun w => if w.name == name then f w else w)) name =
      (WorkflowRegistry.get reg name).map f := by
  induction reg with
  | nil => rfl
  | cons w ws ih =>
    simp only [WorkflowRegistry.get] at ih ⊢
    by_cases hw : (w.name == name) = true
    · rw [List.map_cons,
        if_pos hw,
        List.find?_cons_of_pos (p := fun (w : WorkflowDefinition) => w.name == name) _ (hf w hw),
        List.find?_cons_of_pos (p := fun (w : WorkflowDefinition) => w.name == name) _ hw]
      rfl
    · rw [List.map_cons,
        if_neg hw,
        List.find?_cons_of_neg (p := fun (w : WorkflowDefinition) => w.name == name) _ hw,
        List.find?_cons_of_neg (p := fun (w : WorkflowDefinition) => w.name == name) _ hw]
      exact ih

/-- After deleting a name from the registry, looking it up finds nothing. -/
theorem registry_get_filter_ne (reg : List WorkflowDefinition) (name : String) :
    WorkflowRegistry.get (reg.filter (fun w => !(w.name == name))) name = none := by
  rw [WorkflowRegistry.get, List.find?_eq_none]
  intro x hx
  have := (List.mem_filter.mp hx).2
  simpa using this

/-- Replacing the entry of one key leaves lookups of every other name
untouched. -/
theorem registry_find?_replace (reg : List WorkflowDefinition) (d : WorkflowDefinition)
    (n : String) (hn : (d.name == n) = false) :
    (reg.map (fun w => if w.name == d.name then d else w)).find? (fun w => w.name == n) =
      reg.find? (fun w => w.name == n) := by
  induction reg with
  | nil => rfl
  | cons w ws ih =>
    by_cases hw : (w.name == d.name) = true
    · have hwn : w.name = d.name := by simpa using hw
      have h2 : (w.name == n) = false := by rw [hwn]; exact hn
      rw [List.map_cons,
        if_pos hw,
        List.find?_cons_of_neg (p := fun (w : WorkflowDefinition) => w.name == n) _ (by simp [hn]),
        List.find?_cons_of_neg (p := fun (w : WorkflowDefinition) => w.name == n) _ (by simp [h2])]
      exact ih
    · rw [List.map_cons, if_neg hw]
      by_cases hw2 : (w.name == n) = true
      · rw [List.find?_cons_of_pos (p := fun (w : WorkflowDefinition) => w.name == n) _ hw2,
          List.find?_cons_of_pos (p := fun (w : WorkflowDefinition) => w.name == n) _ hw2]
      · rw [List.find?_cons_of_neg (p := fun (w : WorkflowDefinition) => w.name == n) _ hw2,
          List.find?_cons_of_neg (p := fun (w : WorkflowDefinition) => w.name == n) _ hw2]
        exact ih

/-- C6: `register` with an already present name overwrites the existing
entry (and leaves every other name's lookup unchanged); `unregister`,
`enable` and `disable` return false with no side effect when the name is
absent, and return true having removed, enabled or disabled the entry when
it is present; `get` returns none for an unknown name; none of these
operations can raise for a missing name (their result types carry no
error case). -/
theorem registry_spec (reg : List WorkflowDefinition) (d : WorkflowDefinition)
    (name : String) :
    WorkflowRegistry.get (WorkflowRegistry.register reg d) d.name = some d ∧
    (∀ n, (d.name == n) = false →
      WorkflowRegistry.get (WorkflowRegistry.register reg d) n =
        WorkflowRegistry.get reg n) ∧
    ((∀ w ∈ reg, (w.name == name) = false) →
      WorkflowRegistry.get reg name = none ∧
      WorkflowRegistry.unregister reg name = (false, reg) ∧
      WorkflowRegistry.enable reg name = (false, reg) ∧
      WorkflowRegistry.disable reg name = (false, reg)) ∧
    (∀ w, WorkflowRegistry.get reg name = some w →
      (WorkflowRegistry.unregister reg name).1 = true ∧
      WorkflowRegistry.get (WorkflowRegistry.unregister reg name).2 name = none ∧
      (WorkflowRegistry.enable reg name).1 = true ∧
      WorkflowRegistry.get (WorkflowRegistry.enable reg name).2 name =
        some { w with enabled := true } ∧
      (WorkflowRegistry.disable reg name).1 = true ∧
      WorkflowRegistry.get (WorkflowRegistry.disable reg name).2 name =
        some { w with enabled := false }) := by
  refine ⟨?_, ?_, ?_, ?_⟩
  · unfold WorkflowRegistry.register
    split
    · rename_i hp
      rw [registry_get_map_if reg d.name (fun _ => d) (fun _ _ => by simp)]
      have hex : ∃ w, WorkflowRegistry.get reg d.name = some w := by
        rcases List.any_eq_true.mp hp with ⟨x, hx, hpx⟩
        cases hfind : WorkflowRegistry.get reg d.name with
        | some w => exact ⟨w, rfl⟩
        | none =>
          rw [WorkflowRegistry.get, List.find?_eq_none] at hfind
          exact absurd hpx (hfind x hx)
      rcases hex with ⟨w, hw⟩
      rw [hw]
      rfl
    · rename_i hp
      rw [WorkflowRegistry.get, List.find?_append]
      have hnone : reg.find? (fun w => w.name == d.name) = none := by
        rw [List.find?_eq_none]
        intro x hx hcontra
        exact hp (List.any_eq_true.mpr ⟨x, hx, hcontra⟩)
      simp [hnone, List.find?_cons]
  · intro n hn
    unfold WorkflowRegistry.register
    split
    · exact registry_find?_replace reg d n hn
    · rw [WorkflowRegistry.get, List.find?_append]
      have : [d].find? (fun w => w.name == n) = none := by
        simp [List.find?_cons, hn]
      simp [this, WorkflowRegistry.get]
  · intro habs
    have hany : ∀ key, (∀ w ∈ reg, (w.name == key) = false) →
        ¬(reg.any (fun w => w.name == key) = true) := by
      intro key hk hcontra
      rcases List.any_eq_true.mp hcontra with ⟨x, hx, hpx⟩
      rw [hk x hx] at hpx
      exact absurd hpx (by decide)
    refine ⟨?_, ?_, ?_, ?_⟩
    · rw [WorkflowRegistry.get, List.find?_eq_none]
      intro x hx
      simp [habs x hx]
    · rw [WorkflowRegistry.unregister, if_neg (hany name habs)]
    · rw [WorkflowRegistry.enable, if_neg (hany name habs)]
    · rw [WorkflowRegistry.disable, if_neg (hany name habs)]
  · intro w hw
    have hw' : List.find? (fun x => x.name == name) reg = some w := hw
    have hmem := List.mem_of_find?_eq_some hw'
    have hpred : (w.name == name) = true :=
      List.find?_some (p := fun (x : WorkflowDefinition) => x.name == name) hw'
    have hany : reg.any (fun x => x.name == name) = true :=
      List.any_eq_true.mpr ⟨w, hmem, hpred⟩
    refine ⟨?_, ?_, ?_, ?_, ?_, ?_⟩
    · rw [WorkflowRegistry.unregister, if_pos hany]
    · rw [WorkflowRegistry.unregister, if_pos hany]
      exact registry_get_filter_ne reg name
    · rw [WorkflowRegistry.enable, if_pos hany]
    · rw [WorkflowRegistry.enable, if_pos hany]
      rw [registry_get_map_if reg name
        (fun w => { w with enabled := true }) (fun _ h => h), hw]
      rfl
    · rw [WorkflowRegistry.disable, if_pos hany]
    · rw [WorkflowRegistry.disable, if_pos hany]
      rw [registry_get_map_if reg name
        (fun w => { w with enabled := false }) (fun _ h => h), hw]
      rfl

/-- `takeWhile` consumes exactly an all-satisfying run ended by a failing
element. -/
theorem takeWhile_all_append {p : Char → Bool} (ds : List Char) (x : Char)
    (t : List Char) (hds : ∀ c ∈ ds, p c = true) (hx : p x = false) :
    (ds ++ x :: t).takeWhile p = ds := by
  induction ds with
  | nil => simp [List.takeWhile_cons, hx]
  | cons d rest ih =>
    have hd := hds d (by simp)
    simp [List.takeWhile_cons, hd, ih (fun c hc => hds c (by simp [hc]))]

/-- `dropWhile` skips exactly an all-satisfying run ended by a failing
element. -/
theorem dropWhile_all_append {p : Char → Bool} (ds : List Char) (x : Char)
    (t : List Char) (hds : ∀ c ∈ ds, p c = true) (hx : p x = false) :
    (ds ++ x :: t).dropWhile p = x :: t := by
  induction ds with
  | nil => simp [List.dropWhile_cons, hx]
  | cons d rest ih =>
    have hd := hds d (by simp)
    simp [List.dropWhile_cons, hd, ih (fun c hc => hds c (by simp [hc]))]

/-- An occurrence of `\[REQ-(\d+)\]` at the head of the list makes
`reqIdMatchAt` capture exactly its digit run. -/
theorem reqIdMatchAt_of_occurs {cs ds : List Char} (h : reqOccursAt cs 0 ds) :
    reqIdMatchAt cs = some (natOfDigits ds) := by
  obtain ⟨hne, hdig, r, hcs⟩ := h
  rw [List.drop_zero] at hcs
  subst hcs
  have hdrop : (('[' :: 'R' :: 'E' :: 'Q' :: '-' :: (ds ++ ']' :: r)).drop 5) =
      ds ++ ']' :: r := rfl
  have htake5 : (('[' :: 'R' :: 'E' :: 'Q' :: '-' :: (ds ++ ']' :: r)).take 5) =
      ['[', 'R', 'E', 'Q', '-'] := rfl
  have htw : (ds ++ ']' :: r).takeWhile (fun c => c.isDigit) = ds :=
    takeWhile_all_append ds ']' r hdig (by decide)
  have hdw : (ds ++ ']' :: r).dropWhile (fun c => c.isDigit) = ']' :: r :=
    dropWhile_all_append ds ']' r hdig (by decide)
  have hnem : ds.isEmpty = false := List.isEmpty_eq_false.mpr hne
  unfold reqIdMatchAt
  rw [htake5, if_pos rfl, hdrop, htw, hdw, hnem]
  simp

/-- Inversion: a successful `reqIdMatchAt` exhibits an occurrence of the
pattern at the head of the list. -/
theorem reqIdMatchAt_some {cs : List Char} {n : Nat}
    (h : reqIdMatchAt cs = some n) :
    ∃ ds, reqOccursAt cs 0 ds ∧ n = natOfDigits ds := by
  unfold reqIdMatchAt at h
  split at h
  · rename_i htake
    split at h
    · cases h
    · rename_i hne
      split at h
      · rename_i tail hafter
        refine ⟨(cs.drop 5).takeWhile (fun c => c.isDigit),
          ⟨?_, ?_, ⟨tail, ?_⟩⟩, ?_⟩
        · intro hcontra
          rw [hcontra] at hne
          exact hne rfl
        · intro c hc
          exact List.mem_takeWhile_imp hc
        · rw [List.drop_zero]
          have hsplit : (cs.drop 5).takeWhile (fun c => c.isDigit) ++ ']' :: tail =
              cs.drop 5 := by
            rw [← hafter]
            exact List.takeWhile_append_dropWhile (fun c => c.isDigit) (cs.drop 5)
          calc cs = cs.take 5 ++ cs.drop 5 := (List.take_append_drop 5 cs).symm
            _ = ['[', 'R', 'E', 'Q', '-'] ++ cs.drop 5 := by rw [htake]
            _ = '[' :: 'R' :: 'E' :: 'Q' :: '-' ::
                  ((cs.drop 5).takeWhile (fun c => c.isDigit) ++ ']' :: tail) := by
                rw [hsplit]
                rfl
        · exact (Option.some.inj h).symm
      · cases h
  · cases h

/-- Shifting an occurrence across the head of the list. -/
theorem reqOccursAt_cons_succ (c : Char) (rest : List Char) (i : Nat)
    (ds : List Char) :
    reqOccursAt (c :: rest) (i + 1) ds ↔ reqOccursAt rest i ds := by
  unfold reqOccursAt
  rw [List.drop_succ_cons]

/-- If the pattern occurs nowhere, the left-to-right scan returns none. -/
theorem extractLoop_none (cs : List Char) (h : ∀ i ds, ¬ reqOccursAt cs i ds) :
    extractLoop cs = none := by
  induction cs with
  | nil => rfl
  | cons c rest ih =>
    have hmatch : reqIdMatchAt (c :: rest) = none := by
      cases hm : reqIdMatchAt (c :: rest) with
      | none => rfl
      | some n =>
        obtain ⟨ds, hocc, _⟩ := reqIdMatchAt_some hm
        exact absurd hocc (h 0 ds)
    simp only [extractLoop, hmatch]
    exact ih (fun i ds hocc => h (i + 1) ds
      ((reqOccursAt_cons_succ c rest i ds).mpr hocc))

/-- The left-to-right scan returns the capture of the leftmost occurrence. -/
theorem extractLoop_first (cs : List Char) (i : Nat) (ds : List Char)
    (hocc : reqOccursAt cs i ds)
    (hmin : ∀ j dsj, j < i → ¬ reqOccursAt cs j dsj) :
    extractLoop cs = some (natOfDigits ds) := by
  induction cs generalizing i with
  | nil =>
    exfalso
    obtain ⟨_, _, r, hdrop⟩ := hocc
    simp at hdrop
  | cons c rest ih =>
    cases i with
    | zero =>
      have hhead := reqIdMatchAt_of_occurs hocc
      simp [extractLoop, hhead]
    | succ j =>
      have hmatch : reqIdMatchAt (c :: rest) = none := by
        cases hm : reqIdMatchAt (c :: rest) with
        | none => rfl
        | some n =>
          obtain ⟨ds0, hocc0, _⟩ := reqIdMatchAt_some hm
          exact absurd hocc0 (hmin 0 ds0 (Nat.succ_pos j))
      simp only [extractLoop, hmatch]
      exact ih j ((reqOccursAt_cons_succ c rest j ds).mp hocc)
        (fun k dsk hk hocck => hmin (k + 1) dsk (Nat.succ_lt_succ hk)
          ((reqOccursAt_cons_succ c rest k dsk).mpr hocck))

/-- C7: `extract_request_id` returns the integer captured by the leftmost
occurrence of `\[REQ-(\d+)\]` anywhere in the subject, and none when the
pattern does not occur; in particular "Re: [REQ-456] Original" yields 456,
a subject without the bracket pattern yields none, and "[REQ-abc]" yields
none. -/
theorem extract_request_id_spec (subject : String) :
    (∀ i ds, reqOccursAt subject.data i ds →
      (∀ j dsj, j < i → ¬ reqOccursAt subject.data j dsj) →
      extract_request_id subject = some (natOfDigits ds)) ∧
    ((∀ i ds, ¬ reqOccursAt subject.data i ds) →
      extract_request_id subject = none) ∧
    extract_request_id "Re: [REQ-456] Original" = some 456 ∧
    extract_request_id "Status update" = none ∧
    extract_request_id "[REQ-abc]" = none := by
  refine ⟨?_, ?_, ?_, ?_, ?_⟩
  · intro i ds h1 h2
    exact extractLoop_first subject.data i ds h1 h2
  · intro h
    exact extractLoop_none subject.data h
  · decide
  · decide
  · decide

/-- C7 witness: the leftmost-occurrence characterization applied to the
concrete subject "[REQ-7]x". -/
theorem extract_request_id_spec_witness :
    extract_request_id "[REQ-7]x" = some (natOfDigits ['7']) :=
  (extract_request_id_spec "[REQ-7]x").1 0 ['7']
    ⟨by decide, by decide, ⟨['x'], by decide⟩⟩
    (fun j dsj hj => absurd hj (Nat.not_lt_zero j))

/-- C9: synchronous `classify` on the LLM classifier fails with
`UnsupportedOperationError` (`NotImplementedError`) for every input;
response parsing trims and upper-cases the raw response and compares it by
exact case-insensitive equality against the workflow's event names,
returning the first match in declaration order, and any response matching
no event name yields none. -/
theorem llm_classifier_spec (c : LLMClassifier) (content response : String) :
    (∃ msg, c.classify content = .error (.notImplemented msg)) ∧
    (∀ e, c.parse_response response = some e →
      e ∈ c.event_type_enum ∧ strUpper e.name = strUpper (strip response)) ∧
    ((∀ e ∈ c.event_type_enum, strUpper e.name ≠ strUpper (strip response)) →
      c.parse_response response = none) ∧
    (∀ pre e post, c.event_type_enum = pre ++ e :: post →
      (∀ x ∈ pre, strUpper x.name ≠ strUpper (strip response)) →
      strUpper e.name = strUpper (strip response) →
      c.parse_response response = some e) := by
  refine ⟨⟨_, rfl⟩, ?_, ?_, ?_⟩
  · intro e he
    have he' : List.find?
        (fun e => strUpper e.name == strUpper (strip response))
        c.event_type_enum = some e := he
    refine ⟨List.mem_of_find?_eq_some he', ?_⟩
    have := List.find?_some
      (p := fun (e : EventType) => strUpper e.name == strUpper (strip response)) he'
    simpa using this
  · intro hall
    unfold LLMClassifier.parse_response
    rw [List.find?_eq_none]
    intro x hx hcontra
    exact hall x hx (by simpa using hcontra)
  · intro pre e post hsplit hpre he
    unfold LLMClassifier.parse_response
    rw [hsplit, List.find?_append]
    have hprenone : pre.find?
        (fun e => strUpper e.name == strUpper (strip response)) = none := by
      rw [List.find?_eq_none]
      intro x hx hcontra
      exact hpre x hx (by simpa using hcontra)
    rw [hprenone,
      List.find?_cons_of_pos
        (p := fun (e : EventType) => strUpper e.name == strUpper (strip response))
        _ (by simpa using he)]
    rfl

/-- C9 witness: the enum `{APPROVED, REJECTED}` parses the raw response
" approved " (after trimming and case folding) to APPROVED, and
synchronous classify fails on it. -/
theorem llm_classifier_spec_witness :
    LLMClassifier.parse_response ⟨[⟨"APPROVED"⟩, ⟨"REJECTED"⟩], none⟩
        " approved " = some ⟨"APPROVED"⟩ ∧
    ∃ msg, LLMClassifier.classify ⟨[⟨"APPROVED"⟩, ⟨"REJECTED"⟩], none⟩
        "any content" = .error (.notImplemented msg) :=
  ⟨(llm_classifier_spec ⟨[⟨"APPROVED"⟩, ⟨"REJECTED"⟩], none⟩
      "any content" " approved ").2.2.2
      [] ⟨"APPROVED"⟩ [⟨"REJECTED"⟩] rfl (by simp) (by decide),
   (llm_classifier_spec ⟨[⟨"APPROVED"⟩, ⟨"REJECTED"⟩], none⟩
      "any content" " approved ").1⟩

/-- When every deadline-named candidate's `advance` fails, the sweep loop
attempts exactly the deadline-named events and reports no valid
transition. -/
theorem sweepLoop_all_fail (m : Machine) (evs : List EventType)
    (h : ∀ ev ∈ evs.filter (fun x => substrB "DEADLINE" (strUpper x.name)),
      ∃ e, (m.advance ev).2 = .error e) :
    sweepLoop m evs =
      (evs.filter (fun x => substrB "DEADLINE" (strUpper x.name)),
       .no_valid_transition) := by
  induction evs with
  | nil => rfl
  | cons ev rest ih =>
    have hsub : ∀ x ∈ rest.filter (fun x => substrB "DEADLINE" (strUpper x.name)),
        ∃ e, (m.advance x).2 = .error e := by
      intro x hx
      rcases List.mem_filter.mp hx with ⟨hmem, hpx⟩
      exact h x (List.mem_filter.mpr ⟨List.mem_cons_of_mem _ hmem, hpx⟩)
    by_cases hP : substrB "DEADLINE" (strUpper ev.name) = true
    · obtain ⟨e, he⟩ := h ev (List.mem_filter.mpr ⟨by simp, hP⟩)
      simp [sweepLoop, List.filter_cons, hP, he, ih hsub]
    · have hP' : substrB "DEADLINE" (strUpper ev.name) = false := by simpa using hP
      simp [sweepLoop, List.filter_cons, hP', ih hsub]

/-- The sweep loop stops at the first deadline-named event whose `advance`
succeeds, having attempted exactly the failing deadline-named events
before it. -/
theorem sweepLoop_first_success (m : Machine) (evs : List EventType)
    (pre : List EventType) (ev : EventType) (post : List EventType) (m2 : Machine)
    (hsplit : evs.filter (fun x => substrB "DEADLINE" (strUpper x.name)) =
      pre ++ ev :: post)
    (hpre : ∀ x ∈ pre, ∃ e, (m.advance x).2 = .error e)
    (hok : (m.advance ev).2 = .ok m2) :
    sweepLoop m evs = (pre ++ [ev], .triggered ev m2) := by
  induction evs generalizing pre with
  | nil => simp at hsplit
  | cons x rest ih =>
    by_cases hP : substrB "DEADLINE" (strUpper x.name) = true
    · rw [List.filter_cons, if_pos hP] at hsplit
      cases pre with
      | nil =>
        simp only [List.nil_append] at hsplit
        obtain ⟨rfl, -⟩ := List.cons.inj hsplit
        simp [sweepLoop, hP, hok]
      | cons p ps =>
        simp only [List.cons_append] at hsplit
        obtain ⟨rfl, hrest⟩ := List.cons.inj hsplit
        obtain ⟨e, he⟩ := hpre x (by simp)
        have ihs := ih ps hrest (fun y hy => hpre y (by simp [hy]))
        simp [sweepLoop, hP, he, ihs]
    · have hP' : substrB "DEADLINE" (strUpper x.name) = false := by simpa using hP
      rw [List.filter_cons, if_neg (by simp [hP'])] at hsplit
      simp [sweepLoop, hP', ih pre hsplit hpre]

/-- C8 counterexample: an available event named "deadline_passed" does not
contain the literal token "DEADLINE" in its name, yet the elapsed-deadline
sweep attempts it (the code upper-cases the name before the containment
test), so the claim's "exactly those events whose name contains the
literal token DEADLINE" fails on the code. -/
theorem check_deadline_lowercase_event_attempted :
    (checkDeadline
        ⟨[⟨"s", ⟨"deadline_passed"⟩, "t", true, none⟩],
         ⟨"s", [("deadline_at", Json.num 5)]⟩⟩ 10).1 =
      [⟨"deadline_passed"⟩] ∧
    substrB "DEADLINE" "deadline_passed" = false := by
  constructor
  · rfl
  · decide

/-- C8 (amended): for a request whose recorded state carries an elapsed
(non-falsy) `deadline_at`, the sweep enumerates the deduplicated available
events and attempts, in enumeration order, exactly those whose upper-cased
name contains "DEADLINE", calling `advance` and catching its errors
(including `InvalidTransitionError`) per candidate, stopping at the first
event that succeeds; if none succeeds the request is reported as having no
valid deadline transition and the sweep moves on; a request whose deadline
has not yet elapsed, or whose state lacks `deadline_at`, is skipped
without any advance attempt. -/
theorem check_deadline_spec (m : Machine) (now : Int) :
    (m.get_state_data "deadline_at" = none →
      checkDeadline m now = ([], .skipped_no_deadline)) ∧
    (∀ v, m.get_state_data "deadline_at" = some v → v.isFalsy = true →
      checkDeadline m now = ([], .skipped_no_deadline)) ∧
    (∀ t, m.get_state_data "deadline_at" = some (.num t) → t ≠ 0 → t > now →
      checkDeadline m now = ([], .skipped_not_elapsed)) ∧
    (∀ t, m.get_state_data "deadline_at" = some (.num t) → t ≠ 0 → t ≤ now →
      ((∀ ev ∈ m.get_available_events.filter
            (fun x => substrB "DEADLINE" (strUpper x.name)),
          ∃ e, (m.advance ev).2 = .error e) →
        checkDeadline m now =
          (m.get_available_events.filter
            (fun x => substrB "DEADLINE" (strUpper x.name)),
           .no_valid_transition)) ∧
      (∀ pre ev post m2,
        m.get_available_events.filter
            (fun x => substrB "DEADLINE" (strUpper x.name)) = pre ++ ev :: post →
        (∀ x ∈ pre, ∃ e, (m.advance x).2 = .error e) →
        (m.advance ev).2 = .ok m2 →
        checkDeadline m now = (pre ++ [ev], .triggered ev m2))) := by
  refine ⟨?_, ?_, ?_, ?_⟩
  · intro h
    simp [checkDeadline, h]
  · intro v hget hfalsy
    simp [checkDeadline, hget, hfalsy]
  · intro t hget ht0 htime
    have hfalsy : (Json.num t).isFalsy = false := by simp [Json.isFalsy, ht0]
    simp [checkDeadline, hget, hfalsy, htime]
  · intro t hget ht0 htime
    have hfalsy : (Json.num t).isFalsy = false := by simp [Json.isFalsy, ht0]
    have hnlt : ¬(t > now) := not_lt.mpr htime
    constructor
    · intro hall
      simp [checkDeadline, hget, hfalsy, hnlt, sweepLoop_all_fail m _ hall]
    · intro pre ev post m2 hsplit hpre hok
      simp [checkDeadline, hget, hfalsy, hnlt,
        sweepLoop_first_success m _ pre ev post m2 hsplit hpre hok]

/-- C8 witness: a machine in state `s` with an elapsed deadline and one
available event `DEADLINE_EXPIRED` triggers that event and moves to
`expired`, carrying the data forward. -/
theorem check_deadline_spec_witness :
    checkDeadline
        ⟨[⟨"s", ⟨"DEADLINE_EXPIRED"⟩, "expired", true, none⟩],
         ⟨"s", [("deadline_at", Json.num 5)]⟩⟩ 10 =
      ([⟨"DEADLINE_EXPIRED"⟩],
       .triggered ⟨"DEADLINE_EXPIRED"⟩
         ⟨[⟨"s", ⟨"DEADLINE_EXPIRED"⟩, "expired", true, none⟩],
          ⟨"expired", [("deadline_at", Json.num 5)]⟩⟩) := by
  have h := ((check_deadline_spec
      ⟨[⟨"s", ⟨"DEADLINE_EXPIRED"⟩, "expired", true, none⟩],
       ⟨"s", [("deadline_at", Json.num 5)]⟩⟩ 10).2.2.2 5 rfl
      (by decide) (by decide)).2 [] ⟨"DEADLINE_EXPIRED"⟩ []
      ⟨[⟨"s", ⟨"DEADLINE_EXPIRED"⟩, "expired", true, none⟩],
       ⟨"expired", [("deadline_at", Json.num 5)]⟩⟩
      (by decide) (by simp) rfl
  simpa using h

/-- C10: in the inbound dispatcher, a message is marked processed exactly
when the request is in a terminal status (skip, but mark) or when handling
runs to the end past classification and the advance attempt (successful or
not); a message skipped because the request row is missing, the workflow
definition is absent or disabled, or classification returns none is not
marked processed, so the receiver (which fetches only unprocessed
messages) will return it again on every subsequent run. -/
theorem inbound_mark_processed_spec (request : Option RequestStatus)
    (workflow : Option WorkflowDefinition) (state_record : Option State)
    (body : String) :
    (request = none →
      processMessage request workflow state_record body =
        ⟨.skipped_request_not_found, false⟩) ∧
    (∀ st, request = some st → st = .completed ∨ st = .cancelled →
      processMessage request workflow state_record body =
        ⟨.skipped_closed_request, true⟩) ∧
    (∀ st, request = some st → ¬(st = .completed ∨ st = .cancelled) →
      (workflow = none →
        processMessage request workflow state_record body =
          ⟨.skipped_no_workflow, false⟩) ∧
      (∀ wf, workflow = some wf →
        (wf.enabled = false →
          processMessage request workflow state_record body =
            ⟨.skipped_workflow_disabled, false⟩) ∧
        (wf.enabled = true →
          (wf.classify body = none →
            processMessage request workflow state_record body =
              ⟨.skipped_unclassified, false⟩) ∧
          (∀ ev, wf.classify body = some ev →
            (processMessage request workflow state_record body).marked_processed =
              true)))) := by
  refine ⟨?_, ?_, ?_⟩
  · intro h
    simp [processMessage, h]
  · intro st hreq hterm
    simp [processMessage, hreq, hterm]
  · intro st hreq hterm
    refine ⟨?_, ?_⟩
    · intro h
      simp [processMessage, hreq, hterm, h]
    · intro wf hwf
      refine ⟨?_, ?_⟩
      · intro hdis
        simp [processMessage, hreq, hterm, hwf, hdis]
      · intro hen
        refine ⟨?_, ?_⟩
        · intro hcl
          simp [processMessage, hreq, hterm, hwf, hen, hcl]
        · intro ev hcl
          cases hadv : ((match state_record with
              | some st => (⟨wf.transitions, st⟩ : Machine)
              | none => Machine.mk_initial wf.transitions wf.initial_state).advance
                ev).2 with
          | ok m2 => simp [processMessage, hreq, hterm, hwf, hen, hcl, hadv]
          | error e => simp [processMessage, hreq, hterm, hwf, hen, hcl, hadv]

/-- C10 witness: a pending request with an enabled workflow whose
classifier recognizes the body is marked processed even though the machine
has no matching transition (the advance attempt fails and is caught), and
a message whose classification returns none is not marked processed. -/
theorem inbound_mark_processed_spec_witness :
    (processMessage (some .pending)
        (some ⟨"w", [], "start", fun _ => some ⟨"E"⟩, true⟩) none
        "body").marked_processed = true ∧
    processMessage (some .pending)
        (some ⟨"w", [], "start", fun _ => none, true⟩) none "body" =
      ⟨.skipped_unclassified, false⟩ :=
  ⟨((((inbound_mark_processed_spec (some .pending)
        (some ⟨"w", [], "start", fun _ => some ⟨"E"⟩, true⟩) none
        "body").2.2 .pending rfl (by simp)).2
        ⟨"w", [], "start", fun _ => some ⟨"E"⟩, true⟩ rfl).2 rfl).2
        ⟨"E"⟩ rfl,
   ((((inbound_mark_processed_spec (some .pending)
        (some ⟨"w", [], "start", fun _ => none, true⟩) none
        "body").2.2 .pending rfl (by simp)).2
        ⟨"w", [], "start", fun _ => none, true⟩ rfl).2 rfl).1 rfl⟩

/-- C6 witness: on a one-entry registry, `unregister` of the present name
returns true and removes it, and `enable` of an unknown name returns false
with no side effect. -/
theorem registry_spec_witness :
    (WorkflowRegistry.unregister
        [⟨"gdpr", [], "pending", fun _ => none, true⟩] "gdpr").1 = true ∧
    WorkflowRegistry.enable
        [⟨"gdpr", [], "pending", fun _ => none, true⟩] "other" =
      (false, [⟨"gdpr", [], "pending", fun _ => none, true⟩]) :=
  ⟨((registry_spec [⟨"gdpr", [], "pending", fun _ => none, true⟩]
      ⟨"gdpr", [], "pending", fun _ => none, true⟩ "gdpr").2.2.2
      ⟨"gdpr", [], "pending", fun _ => none, true⟩ rfl).1,
   ((registry_spec [⟨"gdpr", [], "pending", fun _ => none, true⟩]
      ⟨"gdpr", [], "pending", fun _ => none, true⟩ "other").2.2.1
      (by intro w hw; rw [List.mem_singleton.mp hw]; rfl)).2.2.1⟩

/-- C3 witness: a raising action runs exactly once after its guard and the
error propagates while no new state is produced. -/
theorem advance_action_runs_once_witness :
    (Machine.advance
        ⟨[⟨"s", ⟨"E"⟩, "t2", true, some (.raises "boom")⟩], ⟨"s", []⟩⟩
        ⟨"E"⟩).2 = .error (.actionError "boom") ∧
    ((Machine.advance
        ⟨[⟨"s", ⟨"E"⟩, "t2", true, some (.raises "boom")⟩], ⟨"s", []⟩⟩
        ⟨"E"⟩).1.count
      (Eff.actionRun ⟨"s", ⟨"E"⟩, "t2", true, some (.raises "boom")⟩)) = 1 :=
  ⟨((advance_action_runs_once
      ⟨[⟨"s", ⟨"E"⟩, "t2", true, some (.raises "boom")⟩], ⟨"s", []⟩⟩ ⟨"E"⟩
      [] [] ⟨"s", ⟨"E"⟩, "t2", true, some (.raises "boom")⟩ (.raises "boom")
      rfl (by simp) rfl rfl).2.2.1 "boom" rfl),
   ((advance_action_runs_once
      ⟨[⟨"s", ⟨"E"⟩, "t2", true, some (.raises "boom")⟩], ⟨"s", []⟩⟩ ⟨"E"⟩
      [] [] ⟨"s", ⟨"E"⟩, "t2", true, some (.raises "boom")⟩ (.raises "boom")
      rfl (by simp) rfl rfl).2.1)⟩

end WorkflowEngine
